import Mathlib

/-!
Verification of the serde_arrow conversion engine against its
natural-language specification.  The definitions in the first part of this
file are a shallow embedding of the repository's source code: the tuple
builder state machine (src/serde_arrow/src/internal/generic_sinks/tuple.rs),
the date/time string conversions (src/serde_arrow/src/generic/chrono.rs),
the public entry points (src/serde_arrow/src/internal/mod.rs and
src/serde_arrow/src/arrow2_impl/api.rs), and a columnar serialization /
deserialization model for the parts of the engine whose sources are not in
the repository snapshot (those definitions are marked `Modelled from the
spec:`).  The second part states and proves the properties.
-/

namespace SerdeArrow

/-- Modelled from the spec: the event vocabulary of the traversal protocol
(the source file defining `Event`, src/internal/event.rs, is not in the
snapshot; variants follow spec section 3 and the uses in
generic_sinks/tuple.rs and generic/chrono.rs).  Scalars are represented by
a boolean, an integer and a string variant; `variant` is the tagged-union
discriminant and `someMarker` the option marker. -/
inductive Event where
  | startStruct
  | endStruct
  | startTuple
  | endTuple
  | startList
  | endList
  | startMap
  | endMap
  | someMarker
  | variant (name : String) (idx : Nat)
  | null
  | default
  | boolVal (b : Bool)
  | i64Val (v : Int)
  | strVal (s : String)
  deriving DecidableEq

/-- Modelled from the spec: classification of events dispatched to the
`accept_start` specialization of an event sink (the dispatch macros in
src/internal/sink.rs are not in the snapshot; `Start*` events open a
container per spec section 3). -/
def Event.isStartEvent : Event → Bool
  | .startStruct | .startTuple | .startList | .startMap => true
  | _ => false

/-- Modelled from the spec: classification of events dispatched to the
`accept_end` specialization (closing structural markers). -/
def Event.isEndEvent : Event → Bool
  | .endStruct | .endTuple | .endList | .endMap => true
  | _ => false

/-- Modelled from the spec: classification of events dispatched to the
`accept_marker` specialization (the option marker and the union variant
discriminant do not consume a slot of their own). -/
def Event.isMarkerEvent : Event → Bool
  | .someMarker | .variant _ _ => true
  | _ => false

/-- Modelled from the spec: classification of events dispatched to the
`accept_value` specialization (scalars, `Null` and `Default`). -/
def Event.isValueEvent : Event → Bool
  | .null | .default | .boolVal _ | .i64Val _ | .strVal _ => true
  | _ => false

/-- State of `TupleStructBuilder`, from generic_sinks/tuple.rs:
`Start` between records, `Value(active, depth)` inside a record, where
`active` is the index of the currently active child builder and `depth`
the nesting depth of open containers inside the record. -/
inductive TupleArrayBuilderState where
  | start
  | value (active : Nat) (depth : Nat)
  deriving DecidableEq

/-- Embedding of `TupleStructBuilder` from generic_sinks/tuple.rs.  Child
builders are embedded as the list of events forwarded to them (the dynamic
child builders live behind a trait object whose implementations are not in
the snapshot); `validity` and `state` are the struct's own buffers. -/
structure TupleStructBuilder where
  builders : List (List Event)
  validity : List Bool
  state : TupleArrayBuilderState
  finished : Bool
  deriving DecidableEq

/-- Forward one event to the child builder at the given index
(the `next(&mut this.builders[active], val)` calls in tuple.rs). -/
def routeEvent : List (List Event) → Nat → Event → List (List Event)
  | [], _, _ => []
  | l :: ls, 0, e => (l ++ [e]) :: ls
  | l :: ls, Nat.succ k, e => l :: routeEvent ls k e

/-- Embedding of the `EventSink` impl for `TupleStructBuilder`
(tuple.rs, `accept_start` / `accept_end` / `accept_marker` /
`accept_value` bodies, dispatched on the event classification).  A child
builder receiving a routed event logs it; `accept_default` on a child is
logged as an `Event.default` entry. -/
def TupleStructBuilder.accept (b : TupleStructBuilder) (ev : Event) :
    Except String TupleStructBuilder :=
  if ev.isStartEvent then
    match b.state with
    | .start =>
      if ev = Event.startTuple then
        Except.ok { b with state := .value 0 0 }
      else
        Except.error "Invalid event in state Start"
    | .value active depth =>
      Except.ok { b with
        builders := routeEvent b.builders active ev,
        state := .value active (depth + 1) }
  else if ev.isEndEvent then
    match b.state with
    | .start => Except.error "Invalid event in state Start"
    | .value _ 0 =>
      if ev = Event.endTuple then
        Except.ok { b with validity := b.validity ++ [true], state := .start }
      else
        Except.error "Unbalanced opening / close events"
    | .value active (Nat.succ depth) =>
      Except.ok { b with
        builders := routeEvent b.builders active ev,
        state := .value (active + 1) depth }
  else if ev.isMarkerEvent then
    match b.state with
    | .start => Except.ok b
    | .value active depth =>
      Except.ok { b with
        builders := routeEvent b.builders active ev,
        state := .value active depth }
  else
    match b.state with
    | .start =>
      if ev = Event.null then
        Except.ok { b with
          builders := b.builders.map (fun l => l ++ [Event.default]),
          validity := b.validity ++ [false],
          state := .start }
      else if ev = Event.default then
        Except.ok { b with
          builders := b.builders.map (fun l => l ++ [Event.default]),
          validity := b.validity ++ [true],
          state := .start }
      else
        Except.error "Invalid event in state Start"
    | .value active 0 =>
      Except.ok { b with
        builders := routeEvent b.builders active ev,
        state := .value (active + 1) 0 }
    | .value active (Nat.succ depth) =>
      Except.ok { b with
        builders := routeEvent b.builders active ev,
        state := .value active (Nat.succ depth) }

/-- Embedding of `TupleStructBuilder::finish` (tuple.rs): only legal in
`Start` state; marks the builder finished. -/
def TupleStructBuilder.finish (b : TupleStructBuilder) :
    Except String TupleStructBuilder :=
  match b.state with
  | .start => Except.ok { b with finished := true }
  | .value _ _ => Except.error "Invalid state in finish"

/-- Feed a list of events to the tuple builder in order, stopping at the
first error (each event is one `accept` call). -/
def TupleStructBuilder.processEvents (b : TupleStructBuilder) :
    List Event → Except String TupleStructBuilder
  | [] => .ok b
  | e :: es =>
    match b.accept e with
    | .error msg => .error msg
    | .ok b' => b'.processEvents es

/-- The event list of one child value of a tuple whose internal nesting
depth is at most one: either a single value event (a scalar, null or
default), or one opening event, a run of marker/value events, and the
matching closing event. -/
inductive ChildSpan : List Event → Prop where
  | scalar (e : Event) : e.isValueEvent = true → ChildSpan [e]
  | container (s : Event) (inner : List Event) (e : Event) :
      s.isStartEvent = true → e.isEndEvent = true →
      (∀ x ∈ inner, x.isMarkerEvent = true ∨ x.isValueEvent = true) →
      ChildSpan (s :: inner ++ [e])

/-- Embedding of the reverse date/time conversion in
src/serde_arrow/src/generic/chrono.rs (`NaiveDateTimeStrSource::next` and
`DateTimeStrSource::next`): an integer event `I64(val)` is turned into the
date/time with seconds `val / 1000` and nanoseconds `(val % 1000) * 100000`
and formatted with chrono's Debug formatter.  The pair returned here is
that (seconds, nanoseconds) decomposition. -/
def naiveDateTimeStrSourceParts (val : Int) : Int × Int :=
  (val / 1000, (val % 1000) * 100000)

/-- The milliseconds-since-epoch value denoted by the string the reverse
source emits: chrono's Debug format renders the seconds and nanoseconds
exactly, and re-parsing it and calling `timestamp_millis` (the forward
conversion in `NaiveDateTimeStrBuilder::accept`) yields
`seconds * 1000 + nanoseconds / 1000000` (external chrono behaviour,
modelled from its documented semantics). -/
def naiveSourceReparsedMillis (val : Int) : Int :=
  (naiveDateTimeStrSourceParts val).1 * 1000 +
    (naiveDateTimeStrSourceParts val).2 / 1000000

/-- Outcome of running a piece of code that may return normally or abort
the process with a panic. -/
inductive PanicOr (α : Type) where
  | panicked (msg : String)
  | returned (v : α)
  deriving DecidableEq

/-- Embedding of `serialize_into_array` from src/internal/mod.rs
(lines 82-101).  The three stages it composes live behind generic code not
in the snapshot, so they are taken as arguments: `buildRes` is the result
of `build_array_builder` (propagated with the question-mark operator),
`serRes` is the result of `serialize_into_sink` on the built sink, and
`buildArray` finalizes the builder.  The source calls `.unwrap()` on the
serialization result, which aborts the process when it is an error; that
is embedded as `PanicOr.panicked`. -/
def serialize_into_array {B A : Type}
    (buildRes : Except String B)
    (serRes : B → Except String B)
    (buildArray : B → Except String A) : PanicOr (Except String A) :=
  match buildRes with
  | .error e => .returned (.error e)
  | .ok builder =>
    match serRes builder with
    | .error e => .panicked e
    | .ok builder2 => .returned (buildArray builder2)

/-- The enumerated logical data types of `GenericDataType` (the defining
file src/internal/schema.rs is not in the snapshot; the variant names
follow the uses in src/internal/mod.rs and src/test_impls/primitives.rs
and spec section 3). -/
inductive GenericDataType where
  | null
  | bool
  | i8 | i16 | i32 | i64
  | u8 | u16 | u32 | u64
  | f16 | f32 | f64
  | utf8
  | largeUtf8
  | date64
  | struct
  | list
  | largeList
  | union
  | map
  | dictionary
  deriving DecidableEq

/-- Schema node `GenericField` (name, data type, nullability and ordered
children), per spec section 3 and the uses in src/internal/mod.rs. -/
inductive GenericField where
  | mk (name : String) (data_type : GenericDataType) (nullable : Bool)
       (children : List GenericField)

/-- The data type of a field. -/
def GenericField.data_type : GenericField → GenericDataType
  | .mk _ dt _ _ => dt

/-- The children of a field. -/
def GenericField.children : GenericField → List GenericField
  | .mk _ _ _ cs => cs

/-- Embedding of the root-type check of `serialize_into_fields`
(src/internal/mod.rs lines 34-40): given the field the tracer produced for
the root, return its children when the root is a struct, and fail
otherwise (`Null` meaning that no records were seen).  The Rust error
messages carry the offending data type via string formatting; the constant
prefixes are kept here. -/
def serialize_into_fields_root (root : GenericField) :
    Except String (List GenericField) :=
  match root.data_type with
  | .struct => Except.ok root.children
  | .null => Except.error "No records found to determine schema"
  | _ => Except.error "Unexpected root data type"

/-- Embedding of the `StructArrayBuilder` owned by the incremental
`ArraysBuilder` (src/internal/generic_sinks/struct.rs is not in the
snapshot; per spec section 4.3 it has the same buffer and state shape as
the tuple builder embedded above, with child builders embedded as event
logs). -/
structure StructArrayBuilderM where
  builders : List (List Event)
  validity : List Bool
  state : TupleArrayBuilderState
  finished : Bool
  deriving DecidableEq

/-- Modelled from the spec: `build_struct_array_builder` (the builder
factory of src/internal/generic_sinks/mod.rs, not in the snapshot) creates
one fresh child builder per field; a fresh builder has empty buffers and
is in `Start` state (spec sections 4.3 and 3, Builder state).  The
factory's failure on unsupported data types is outside the modelled
fragment. -/
def build_struct_array_builder (fields : List GenericField) :
    StructArrayBuilderM :=
  { builders := fields.map (fun _ => []),
    validity := [],
    state := .start,
    finished := false }

/-- Embedding of `StructArrayBuilder::finish`: only legal in `Start`
state (mirrors `TupleStructBuilder::finish` in tuple.rs, per spec
section 4.3). -/
def StructArrayBuilderM.finish (b : StructArrayBuilderM) :
    Except String StructArrayBuilderM :=
  match b.state with
  | .start => Except.ok { b with finished := true }
  | .value _ _ => Except.error "Invalid state in finish"

/-- Embedding of the incremental `ArraysBuilder` of src/internal/mod.rs
(lines 103-146): it owns the field list and one struct array builder. -/
structure ArraysBuilder where
  fields : List GenericField
  builder : StructArrayBuilderM

/-- Embedding of `ArraysBuilder::new`: a fresh builder for the fields. -/
def ArraysBuilder.new (fields : List GenericField) : ArraysBuilder :=
  { fields := fields, builder := build_struct_array_builder fields }

/-- Embedding of `ArraysBuilder::build_arrays` (src/internal/mod.rs lines
139-145): construct a fresh builder for the stored fields, swap it with
the current one, then finish the old builder and turn its buffers into the
output arrays (here: the child event logs).  The returned pair is the
call's result together with the builder's state after the call. -/
def ArraysBuilder.build_arrays (ab : ArraysBuilder) :
    Except String (List (List Event)) × ArraysBuilder :=
  match ab.builder.finish with
  | .error e =>
    (.error e, ArraysBuilder.mk ab.fields (build_struct_array_builder ab.fields))
  | .ok oldFinished =>
    (.ok oldFinished.builders,
      ArraysBuilder.mk ab.fields (build_struct_array_builder ab.fields))

/-- Modelled from the spec: the primitive logical types of the columnar
model used to settle the round-trip and reconstruction claims (the
compiled serialization/deserialization engine,
src/internal/serialization.rs and src/internal/deserialization.rs, is not
in the snapshot).  One boolean, one integer and one string type represent
the fixed-width and variable-length primitive columns of spec section 3. -/
inductive PrimType where
  | boolT
  | i64T
  | utf8T
  deriving DecidableEq

/-- A raw entry of a primitive value buffer. -/
inductive Scalar where
  | boolS (b : Bool)
  | intS (v : Int)
  | strS (s : String)
  deriving DecidableEq

/-- Modelled from the spec: a row-oriented value of the object model
(spec section 1): null, primitives, records with ordered fields, and
variable-length lists. -/
inductive AValue where
  | null
  | boolV (b : Bool)
  | intV (v : Int)
  | strV (s : String)
  | structV (fields : List AValue)
  | listV (items : List AValue)

/-- Modelled from the spec: a schema node of the columnar model: a
primitive field, a struct with ordered children, or a list with a single
child (spec section 3, Field). -/
inductive SField where
  | prim (nullable : Bool) (t : PrimType)
  | structF (nullable : Bool) (children : List SField)
  | listF (nullable : Bool) (child : SField)

/-- Modelled from the spec: a columnar array: validity flags plus a value
buffer for primitives, child arrays for structs and an offset buffer plus
one child array for lists (spec section 3, Buffers). -/
inductive ColArray where
  | primA (validity : List Bool) (values : List Scalar)
  | structA (validity : List Bool) (children : List ColArray)
  | listA (validity : List Bool) (offsets : List Nat) (child : ColArray)

/-- The zero-equivalent buffer entry of a primitive type (used as the
placeholder written at null positions, spec section 8). -/
def defaultScalar : PrimType → Scalar
  | .boolT => .boolS false
  | .i64T => .intS 0
  | .utf8T => .strS ""

/-- Encode a non-null value into a primitive buffer entry; a null (or
mismatched) value yields the placeholder, which validity marks as
ignorable. -/
def encodeScalar : PrimType → AValue → Scalar
  | .boolT, .boolV b => .boolS b
  | .i64T, .intV v => .intS v
  | .utf8T, .strV s => .strS s
  | t, _ => defaultScalar t

/-- Decode a primitive buffer entry back into a value. -/
def decodeScalar : Scalar → AValue
  | .boolS b => .boolV b
  | .intS v => .intV v
  | .strS s => .strV s

/-- The validity flag a value contributes: false exactly for null. -/
def AValue.isPresent : AValue → Bool
  | .null => false
  | _ => true

/-- The elements a value contributes to a list column's child: a null
contributes none. -/
def AValue.listItems : AValue → List AValue
  | .listV xs => xs
  | _ => []

mutual

/-- Modelled from the spec: the type-specific zero value routed through
child builders when a null or default is recorded at a container
(spec sections 4.1 and 4.3). -/
def defaultValue : SField → AValue
  | .prim _ t => decodeScalar (defaultScalar t)
  | .structF _ cs => .structV (defaultValues cs)
  | .listF _ _ => .listV []

/-- Zero values of a list of fields, in order. -/
def defaultValues : List SField → List AValue
  | [] => []
  | c :: cs => defaultValue c :: defaultValues cs

end

/-- Projection of a record value onto its k-th component; a null record
(and a missing component) projects to the supplied default, matching the
builder that routes defaults through every child of a null struct. -/
def structProj (k : Nat) (d : AValue) : AValue → AValue
  | .structV vs => vs.getD k d
  | _ => d

mutual

/-- A value conforms to a field: null only if the field is nullable,
primitives by type, records field-by-field in order, and list elements
against the single child. -/
def conforms : SField → AValue → Bool
  | .prim nb _, .null => nb
  | .structF nb _, .null => nb
  | .listF nb _, .null => nb
  | .prim _ .boolT, .boolV _ => true
  | .prim _ .i64T, .intV _ => true
  | .prim _ .utf8T, .strV _ => true
  | .structF _ cs, .structV vs => conformsAll cs vs
  | .listF _ c, .listV xs => conformsElems c xs
  | _, _ => false
termination_by _ v => sizeOf v

/-- Pairwise conformance of a record's components to a field list
(requires equal lengths). -/
def conformsAll : List SField → List AValue → Bool
  | [], [] => true
  | c :: cs, v :: vs => conforms c v && conformsAll cs vs
  | _, _ => false
termination_by _ vs => sizeOf vs

/-- Conformance of every element of a list to the element field. -/
def conformsElems : SField → List AValue → Bool
  | _, [] => true
  | c, v :: vs => conforms c v && conformsElems c vs
termination_by _ vs => sizeOf vs

end

/-- Offset buffer for the given element lengths: N+1 monotone entries
starting at 0 (spec section 3, Buffers). -/
def offsetsOf : List Nat → List Nat
  | [] => [0]
  | n :: ns => 0 :: (offsetsOf ns).map (fun x => n + x)

mutual

/-- Modelled from the spec: serialization of one column (spec section
4.3): validity is one flag per cell; primitives encode each cell into the
value buffer; structs serialize, for each child, the cells projected onto
that child (nulls projecting to the child's zero value, keeping child
buffers aligned); lists record offsets from the element counts and
serialize the concatenated elements into the child. -/
def serializeCol : SField → List AValue → ColArray
  | .prim _ t, cells =>
    .primA (cells.map AValue.isPresent) (cells.map (encodeScalar t))
  | .structF _ cs, cells =>
    .structA (cells.map AValue.isPresent) (serializeChildren cs 0 cells)
  | .listF _ c, cells =>
    .listA (cells.map AValue.isPresent)
      (offsetsOf ((cells.map AValue.listItems).map List.length))
      (serializeCol c (cells.map AValue.listItems).flatten)
termination_by f _ => sizeOf f

/-- Serialize the children of a struct column, the child at position k
receiving the cells projected onto component k. -/
def serializeChildren : List SField → Nat → List AValue → List ColArray
  | [], _, _ => []
  | c :: cs, k, cells =>
    serializeCol c (cells.map (structProj k (defaultValue c))) ::
      serializeChildren cs (k + 1) cells
termination_by cs _ _ => sizeOf cs

end

/-- Recombine struct rows from decoded child columns: row i is null when
the validity flag is unset, else the record of the children's i-th
entries (spec section 4.5). -/
def rowsOfStruct (validity : List Bool) (cols : List (List AValue)) :
    List AValue :=
  (List.range validity.length).map fun i =>
    if validity.getD i false then
      .structV (cols.map fun col => col.getD i .null)
    else .null

mutual

/-- Modelled from the spec: the reverse interpreter's reading of one
column (spec section 4.5): for each row, emit null when the validity bit
is unset, else decode the buffer entry, recombine the child rows (for
structs) or slice the child rows between consecutive offsets (for
lists).  A shape mismatch between field and array yields no rows; the
entry point guards it with a shape check. -/
def deserializeCol : SField → ColArray → List AValue
  | .prim _ t, .primA validity values =>
    (List.range validity.length).map fun i =>
      if validity.getD i false then
        decodeScalar (values.getD i (defaultScalar t))
      else .null
  | .structF _ cs, .structA validity children =>
    rowsOfStruct validity (deserChildren cs children)
  | .listF _ c, .listA validity offsets child =>
    (List.range validity.length).map fun i =>
      if validity.getD i false then
        .listV (((deserializeCol c child).drop (offsets.getD i 0)).take
          (offsets.getD (i + 1) 0 - offsets.getD i 0))
      else .null
  | _, _ => []
termination_by f _ => sizeOf f

/-- Read the child columns of a struct column pairwise. -/
def deserChildren : List SField → List ColArray → List (List AValue)
  | [], _ => []
  | _ :: _, [] => []
  | c :: cs, a :: as => deserializeCol c a :: deserChildren cs as
termination_by cs _ => sizeOf cs

end

mutual

/-- A field and an array have matching shapes (constructor-wise,
recursively); this is what buffer extraction validates before the reverse
interpreter runs (spec section 4.5). -/
def shapeOk : SField → ColArray → Bool
  | .prim _ _, .primA _ _ => true
  | .structF _ cs, .structA _ children => shapeOkAll cs children
  | .listF _ c, .listA _ _ child => shapeOk c child
  | _, _ => false
termination_by f _ => sizeOf f

/-- Pairwise shape agreement of struct children (requires equal counts). -/
def shapeOkAll : List SField → List ColArray → Bool
  | [], [] => true
  | c :: cs, a :: as => shapeOk c a && shapeOkAll cs as
  | _, _ => false
termination_by cs _ => sizeOf cs

end

/-- The length of an array: the number of validity entries. -/
def colHeight : ColArray → Nat
  | .primA validity _ => validity.length
  | .structA validity _ => validity.length
  | .listA validity _ _ => validity.length

/-- Embedding of the row-count computation of `from_arrow2`
(src/arrow2_impl/api.rs lines 202-206): the minimum length over the given
arrays, defaulting to zero when there are none
(`.min().unwrap_or_default()`). -/
def rowCount (arrays : List ColArray) : Nat :=
  ((arrays.map colHeight).min?).getD 0

/-- Extraction of one column: the shape check followed by the reverse
read (spec section 4.5; `extract_buffers` in the source). -/
def extractOne (f : SField) (a : ColArray) : Except String (List AValue) :=
  if shapeOk f a then .ok (deserializeCol f a) else
    .error "cannot extract buffers"

/-- Extraction over the zipped field/array pairs, mirroring the
`fields.iter().zip(arrays.iter())` loop of `from_arrow2` (excess entries
on either side are ignored, as zip does). -/
def extractAll : List SField → List ColArray → Except String (List (List AValue))
  | [], _ => .ok []
  | _ :: _, [] => .ok []
  | f :: fs, a :: as => do
    let c ← extractOne f a
    let cs ← extractAll fs as
    .ok (c :: cs)

/-- Embedding of `from_arrow2` (src/arrow2_impl/api.rs lines 187-221) over
the columnar model: the row count is the minimum array length (zero when
no arrays are given), the zipped columns are extracted, and each of the
first `rowCount` rows is read from every column (a row index beyond a
column's length is a read failure of the reverse interpreter). -/
def from_arrays (fields : List SField) (arrays : List ColArray) :
    Except String (List (List AValue)) := do
  let cols ← extractAll fields arrays
  (List.range (rowCount arrays)).mapM fun i =>
    cols.mapM fun col =>
      if h : i < col.length then pure (col.get ⟨i, h⟩)
      else Except.error "row index out of bounds"

/-- Embedding of `to_arrow2` (src/arrow2_impl/api.rs lines 142-156) over
the columnar model: the records are wrapped in an implicit outer struct
whose children are the schema's fields, and each field's column is
serialized from the wrapped cells (spec sections 4.1 and 4.4). -/
def to_arrays (fields : List SField) (records : List (List AValue)) :
    List ColArray :=
  serializeChildren fields 0 (records.map AValue.structV)

/-- A batch conforms to a schema: every record conforms field-by-field. -/
def conformsRecords (fields : List SField) (records : List (List AValue)) :
    Bool :=
  records.all fun r => conformsAll fields r

/-- The per-child projections of a cell list, child k receiving
`structProj k` of every cell (the cell lists `serializeChildren` hands to
the child columns). -/
def childProjections : List SField → Nat → List AValue → List (List AValue)
  | [], _, _ => []
  | c :: cs, k, cells =>
    cells.map (structProj k (defaultValue c)) :: childProjections cs (k + 1) cells

/-- Conformance of all per-child projections of a single cell, the child
at position k checked against `structProj k` of the cell. -/
def projConformsFrom : List SField → Nat → AValue → Bool
  | [], _, _ => true
  | c :: cs, k, v =>
    conforms c (structProj k (defaultValue c) v) && projConformsFrom cs (k + 1) v

/-- The row a struct cell contributes across the children starting at
position k: one projected component per child. -/
def projRow : List SField → Nat → AValue → List AValue
  | [], _, _ => []
  | c :: cs, k, v => structProj k (defaultValue c) v :: projRow cs (k + 1) v

/-! Theorems. -/

/-- Disjointness of the event classification: a value event is dispatched
to none of the structural specializations. -/
theorem isValueEvent_classification (ev : Event) (h : ev.isValueEvent = true) :
    ev.isStartEvent = false ∧ ev.isEndEvent = false ∧ ev.isMarkerEvent = false := by
  cases ev <;> simp_all [Event.isValueEvent, Event.isStartEvent,
    Event.isEndEvent, Event.isMarkerEvent]

/-- Disjointness of the event classification: a marker event is neither a
start nor an end event. -/
theorem isMarkerEvent_classification (ev : Event)
    (h : ev.isMarkerEvent = true) :
    ev.isStartEvent = false ∧ ev.isEndEvent = false := by
  cases ev <;> simp_all [Event.isMarkerEvent, Event.isStartEvent,
    Event.isEndEvent]

/-- Disjointness of the event classification: an end event is not a start
event. -/
theorem isEndEvent_not_start (ev : Event) (h : ev.isEndEvent = true) :
    ev.isStartEvent = false := by
  cases ev <;> simp_all [Event.isEndEvent, Event.isStartEvent]

/-- Routing at a position given by a prefix decomposition appends the
event to exactly that child's log. -/
theorem routeEvent_at (pre post : List (List Event)) (l : List Event)
    (e : Event) :
    routeEvent (pre ++ l :: post) pre.length e = pre ++ (l ++ [e]) :: post := by
  induction pre with
  | nil => rfl
  | cons p ps ih => simp [routeEvent, ih]

/-- Processing a run of marker/value events at nesting depth one routes
each of them to the active child and leaves state and validity
unchanged. -/
theorem processEvents_inner (inner : List Event)
    (h : ∀ x ∈ inner, x.isMarkerEvent = true ∨ x.isValueEvent = true)
    (pre post : List (List Event)) (l : List Event) (v : List Bool)
    (fin : Bool) :
    TupleStructBuilder.processEvents
      ⟨pre ++ l :: post, v, .value pre.length 1, fin⟩ inner =
      Except.ok ⟨pre ++ (l ++ inner) :: post, v, .value pre.length 1, fin⟩ := by
  induction inner generalizing l with
  | nil => simp [TupleStructBuilder.processEvents]
  | cons x xs ih =>
    have hstep : TupleStructBuilder.accept
        ⟨pre ++ l :: post, v, .value pre.length 1, fin⟩ x =
        Except.ok ⟨pre ++ (l ++ [x]) :: post, v, .value pre.length 1, fin⟩ := by
      rcases h x (List.mem_cons_self x xs) with hm | hv
      · obtain ⟨h1, h2⟩ := isMarkerEvent_classification x hm
        simp [TupleStructBuilder.accept, h1, h2, hm, routeEvent_at]
      · obtain ⟨h1, h2, h3⟩ := isValueEvent_classification x hv
        simp [TupleStructBuilder.accept, h1, h2, h3, routeEvent_at]
    have ihx := ih (fun y hy => h y (List.mem_cons_of_mem x hy)) (l ++ [x])
    simp [TupleStructBuilder.processEvents, hstep, ihx, List.append_assoc]

/-- Processing a concatenation of event lists runs them in sequence. -/
theorem processEvents_append (b : TupleStructBuilder) (xs ys : List Event) :
    b.processEvents (xs ++ ys) =
      match b.processEvents xs with
      | .error m => .error m
      | .ok b' => b'.processEvents ys := by
  induction xs generalizing b with
  | nil => simp [TupleStructBuilder.processEvents]
  | cons x xs ih =>
    simp only [List.cons_append, TupleStructBuilder.processEvents]
    cases b.accept x with
    | error m => rfl
    | ok b' => exact ih b'

/-- Processing a concatenation whose first part succeeds continues from
the intermediate builder. -/
theorem processEvents_append_ok (b b' : TupleStructBuilder)
    (xs ys : List Event) (h : b.processEvents xs = Except.ok b') :
    b.processEvents (xs ++ ys) = b'.processEvents ys := by
  rw [processEvents_append, h]

/-- Processing one child value whose events nest at most one level deep,
from the state where child `pre.length` is active at depth zero: every
event of the span is routed to that child's log, and the active index
advances exactly once, to the next child. -/
theorem processEvents_span (es : List Event) (hspan : ChildSpan es)
    (pre post : List (List Event)) (l : List Event) (v : List Bool)
    (fin : Bool) :
    TupleStructBuilder.processEvents
      ⟨pre ++ l :: post, v, .value pre.length 0, fin⟩ es =
      Except.ok ⟨pre ++ (l ++ es) :: post, v,
        .value (pre.length + 1) 0, fin⟩ := by
  cases hspan with
  | scalar e hv =>
    obtain ⟨h1, h2, h3⟩ := isValueEvent_classification e hv
    simp [TupleStructBuilder.processEvents, TupleStructBuilder.accept,
      h1, h2, h3, routeEvent_at]
  | container s inner e hs he hinner =>
    have h1 := isEndEvent_not_start e he
    have hstart : TupleStructBuilder.accept
        ⟨pre ++ l :: post, v, .value pre.length 0, fin⟩ s =
        Except.ok ⟨pre ++ (l ++ [s]) :: post, v, .value pre.length 1, fin⟩ := by
      simp [TupleStructBuilder.accept, hs, routeEvent_at]
    have hinner2 := processEvents_inner inner hinner pre post (l ++ [s]) v fin
    have hend : TupleStructBuilder.accept
        ⟨pre ++ ((l ++ [s]) ++ inner) :: post, v, .value pre.length 1, fin⟩ e =
        Except.ok ⟨pre ++ (((l ++ [s]) ++ inner) ++ [e]) :: post, v,
          .value (pre.length + 1) 0, fin⟩ := by
      simp [TupleStructBuilder.accept, h1, he, routeEvent_at]
    have hassoc : ((l ++ [s]) ++ inner) ++ [e] = l ++ (s :: inner ++ [e]) := by
      simp [List.append_assoc]
    simp only [TupleStructBuilder.processEvents, hstart]
    rw [List.append_eq, processEvents_append, hinner2]
    simp only [TupleStructBuilder.processEvents, hend, hassoc]

/-- Processing the concatenated spans of successive children routes each
span to its own child log and advances the active index by one per
span. -/
theorem processEvents_spans :
    ∀ (spans : List (List Event)) (pre logs : List (List Event))
      (v : List Bool) (fin : Bool),
      (∀ es ∈ spans, ChildSpan es) → logs.length = spans.length →
      TupleStructBuilder.processEvents
        ⟨pre ++ logs, v, .value pre.length 0, fin⟩ spans.flatten =
        Except.ok ⟨pre ++ List.zipWith (fun l es => l ++ es) logs spans, v,
          .value (pre.length + spans.length) 0, fin⟩ := by
  intro spans
  induction spans with
  | nil =>
    intro pre logs v fin h hlen
    cases logs with
    | nil => simp [TupleStructBuilder.processEvents]
    | cons _ _ => simp at hlen
  | cons es rest ih =>
    intro pre logs v fin h hlen
    cases logs with
    | nil => simp at hlen
    | cons l ls =>
      have hlen2 : ls.length = rest.length := by simpa using hlen
      have hspan := h es (List.mem_cons_self es rest)
      have hrest : ∀ x ∈ rest, ChildSpan x :=
        fun x hx => h x (List.mem_cons_of_mem es hx)
      rw [List.flatten_cons,
        processEvents_append_ok _ _ _ _
          (processEvents_span es hspan pre ls l v fin)]
      have ih2 : TupleStructBuilder.processEvents
          ⟨pre ++ (l ++ es) :: ls, v, .value (pre.length + 1) 0, fin⟩
          rest.flatten =
          Except.ok ⟨pre ++ (l ++ es) ::
              List.zipWith (fun a b => a ++ b) ls rest, v,
            .value (pre.length + 1 + rest.length) 0, fin⟩ := by
        have h0 := ih (pre ++ [l ++ es]) ls v fin hrest hlen2
        simpa [List.append_assoc] using h0
      rw [ih2]
      have e3 : pre.length + 1 + rest.length =
          pre.length + (es :: rest).length := by
        simp [List.length_cons]; omega
      rw [e3]
      simp [List.zipWith_cons_cons]

/-- C4 counterexample: a two-child tuple builder fed the opening of a
well-nested first child value that nests two levels deep (a list of
lists).  All four events after `StartTuple` belong to the first child
value, yet the builder routes the outer `EndList` to the second child
builder and has advanced the active child index twice before the first
child value is complete, so the claimed routing fails at nesting depth
two. -/
theorem c4_deep_nesting_misroutes_counterexample :
    TupleStructBuilder.processEvents
      (TupleStructBuilder.mk [[], []] [] .start false)
      [Event.startTuple, Event.startList, Event.startList,
        Event.endList, Event.endList] =
      Except.ok (TupleStructBuilder.mk
        [[Event.startList, Event.startList, Event.endList], [Event.endList]]
        [] (.value 2 0) false) ∧
    ([Event.endList] : List Event) ≠ [] :=
  ⟨rfl, by simp⟩

/-- C4 (amended): for every well-nested event stream encoding a tuple
value with children in declared order, in which each child value's events
nest at most one level deep, the tuple builder routes every event of the
k-th child value to the k-th child builder and the active child index
advances exactly once per completed child value; the record closes with
one validity entry and the builder returns to `Start`.  (At nesting depth
two or more the source advances the active index on every closing event,
misrouting the remainder of the child value — see the counterexample.) -/
theorem c4_tuple_routing_shallow (spans : List (List Event))
    (logs : List (List Event)) (v : List Bool) (fin : Bool)
    (hspans : ∀ es ∈ spans, ChildSpan es)
    (hlen : logs.length = spans.length) :
    TupleStructBuilder.processEvents ⟨logs, v, .start, fin⟩
      (Event.startTuple :: (spans.flatten ++ [Event.endTuple])) =
      Except.ok ⟨List.zipWith (fun l es => l ++ es) logs spans,
        v ++ [true], .start, fin⟩ ∧
    (∀ (es : List Event) (pre post : List (List Event)) (l : List Event),
      ChildSpan es →
      TupleStructBuilder.processEvents
        ⟨pre ++ l :: post, v, .value pre.length 0, fin⟩ es =
        Except.ok ⟨pre ++ (l ++ es) :: post, v,
          .value (pre.length + 1) 0, fin⟩) := by
  constructor
  · have hfirst : TupleStructBuilder.accept ⟨logs, v, .start, fin⟩
        Event.startTuple = Except.ok ⟨logs, v, .value 0 0, fin⟩ := by
      simp [TupleStructBuilder.accept, Event.isStartEvent]
    simp only [TupleStructBuilder.processEvents, hfirst]
    have hspansL := processEvents_spans spans [] logs v fin hspans hlen
    simp only [List.nil_append, List.length_nil, Nat.zero_add] at hspansL
    rw [processEvents_append_ok _ _ _ _ hspansL]
    simp [TupleStructBuilder.processEvents, TupleStructBuilder.accept,
      Event.isEndEvent, Event.isStartEvent]
  · intro es pre post l hes
    exact processEvents_span es hes pre post l v fin

/-- C4 witness: a two-child tuple, first child a scalar, second child a
single-level list; every event lands in its own child's log and one
record is closed. -/
theorem c4_tuple_routing_shallow_witness :
    TupleStructBuilder.processEvents
      (TupleStructBuilder.mk [[], []] [] .start false)
      (Event.startTuple ::
        (([[Event.i64Val 1],
           [Event.startList, Event.i64Val 2, Event.endList]] :
            List (List Event)).flatten ++ [Event.endTuple])) =
      Except.ok (TupleStructBuilder.mk
        [[Event.i64Val 1], [Event.startList, Event.i64Val 2, Event.endList]]
        [true] .start false) := by
  have hs : ∀ es ∈ ([[Event.i64Val 1],
      [Event.startList, Event.i64Val 2, Event.endList]] :
        List (List Event)), ChildSpan es := by
    intro es hes
    simp only [List.mem_cons, List.not_mem_nil, or_false] at hes
    rcases hes with h | h
    · subst h; exact ChildSpan.scalar (Event.i64Val 1) rfl
    · subst h
      exact ChildSpan.container Event.startList [Event.i64Val 2]
        Event.endList rfl rfl
        (by intro x hx; simp only [List.mem_singleton] at hx; subst hx
            right; rfl)
  exact (c4_tuple_routing_shallow
    [[Event.i64Val 1], [Event.startList, Event.i64Val 2, Event.endList]]
    [[], []] [] false hs rfl).1

/-- C7: feeding any closing structural event (EndStruct, EndTuple,
EndList or EndMap) to the tuple/struct builder in `Start` state fails with
a protocol-violation error; an end event is never accepted as the first
event of a value. -/
theorem c7_end_event_in_start_state_fails (b : TupleStructBuilder)
    (ev : Event) (hs : b.state = .start) (he : ev.isEndEvent = true) :
    b.accept ev = Except.error "Invalid event in state Start" := by
  have h1 : ev.isStartEvent = false := by
    cases ev <;> simp_all [Event.isStartEvent, Event.isEndEvent]
  simp [TupleStructBuilder.accept, h1, he, hs]

/-- C7 witness: the concrete builder with two children in `Start` state
rejects a bare `EndTuple`. -/
theorem c7_end_event_in_start_state_fails_witness :
    (TupleStructBuilder.mk [[], []] [] .start false).state = .start ∧
    Event.endTuple.isEndEvent = true ∧
    (TupleStructBuilder.mk [[], []] [] .start false).accept Event.endTuple =
      Except.error "Invalid event in state Start" :=
  ⟨rfl, rfl, c7_end_event_in_start_state_fails _ _ rfl rfl⟩

/-- C6: in `Start` state, a `Null` event routes a default through every
child builder and appends validity false, a `Default` event routes a
default through every child builder and appends validity true; in both
cases every child log grows by exactly one entry and the builder returns
to `Start` state. -/
theorem c6_null_default_at_start (b : TupleStructBuilder)
    (hs : b.state = .start) :
    b.accept Event.null = Except.ok
      { b with builders := b.builders.map (fun l => l ++ [Event.default]),
               validity := b.validity ++ [false], state := .start } ∧
    b.accept Event.default = Except.ok
      { b with builders := b.builders.map (fun l => l ++ [Event.default]),
               validity := b.validity ++ [true], state := .start } ∧
    (b.builders.map (fun l => l ++ [Event.default])).map List.length =
      b.builders.map (fun l => l.length + 1) := by
  refine ⟨?_, ?_, ?_⟩
  · simp [TupleStructBuilder.accept, hs, Event.isStartEvent,
      Event.isEndEvent, Event.isMarkerEvent]
  · simp [TupleStructBuilder.accept, hs, Event.isStartEvent,
      Event.isEndEvent, Event.isMarkerEvent]
  · simp

/-- C6 witness: the concrete two-child builder in `Start` state. -/
theorem c6_null_default_at_start_witness :
    (TupleStructBuilder.mk [[], []] [] .start false).accept Event.null =
      Except.ok (TupleStructBuilder.mk [[Event.default], [Event.default]]
        [false] .start false) ∧
    (TupleStructBuilder.mk [[], []] [] .start false).accept Event.default =
      Except.ok (TupleStructBuilder.mk [[Event.default], [Event.default]]
        [true] .start false) := by
  have h := c6_null_default_at_start
    (TupleStructBuilder.mk [[], []] [] .start false) rfl
  exact ⟨h.1, h.2.1⟩

/-- C2: evaluating the reverse date/time conversion of
generic/chrono.rs at the integer timestamp 1500 (the string
1970-01-01T00:00:01.500): the emitted string denotes 1050 milliseconds,
not 1500 — the sub-second part is divided by ten because the source
multiplies the millisecond remainder by 100000 instead of 1000000
nanoseconds. -/
theorem c2_reverse_conversion_corrupts_subseconds :
    naiveSourceReparsedMillis 1500 = 1050 ∧ (1050 : Int) ≠ 1500 := by
  constructor
  · rfl
  · decide

/-- C3: evaluating `serialize_into_array` (src/internal/mod.rs lines
82-101) at an input whose serialization step fails: the function panics
(aborts the process) with the serialization error instead of returning it,
because line 99 calls `.unwrap()` on the result of
`serialize_into_sink`. -/
theorem c3_serialize_into_array_panics_on_failed_serialization :
    serialize_into_array (Except.ok ())
      (fun (_ : Unit) => (Except.error "serialization failed" : Except String Unit))
      (fun (_ : Unit) => (Except.ok 0 : Except String Nat)) =
      PanicOr.panicked "serialization failed" := rfl

/-- C9: the root-type check of `serialize_into_fields`: it succeeds and
returns the root's children exactly when the traced root type is Struct;
a Null root (no records observed) fails with the no-records error; any
other root type also fails. -/
theorem c9_root_type_check (root : GenericField) :
    (root.data_type = GenericDataType.struct →
      serialize_into_fields_root root = Except.ok root.children) ∧
    (root.data_type = GenericDataType.null →
      serialize_into_fields_root root =
        Except.error "No records found to determine schema") ∧
    (root.data_type ≠ GenericDataType.struct →
      root.data_type ≠ GenericDataType.null →
      ∃ msg, serialize_into_fields_root root = Except.error msg) ∧
    (∀ l, serialize_into_fields_root root = Except.ok l →
      root.data_type = GenericDataType.struct ∧ l = root.children) := by
  obtain ⟨n, dt, nb, cs⟩ := root
  cases dt <;>
    simp [serialize_into_fields_root, GenericField.data_type,
      GenericField.children]

/-- C9 witness: a struct root with one child yields exactly its
children. -/
theorem c9_root_type_check_witness :
    serialize_into_fields_root
      (GenericField.mk "root" GenericDataType.struct false
        [GenericField.mk "a" GenericDataType.bool false []]) =
      Except.ok [GenericField.mk "a" GenericDataType.bool false []] :=
  (c9_root_type_check _).1 rfl

/-- C8: after a successful `build_arrays` call the incremental builder is
exactly a freshly constructed builder for the same fields: empty child
buffers, empty validity and `Start` state, so a subsequent
push/extend/build_arrays sequence behaves as on a fresh builder. -/
theorem c8_build_arrays_resets_builder (ab : ArraysBuilder)
    (r : Except String (List (List Event))) (ab' : ArraysBuilder)
    (h : ab.build_arrays = (r, ab')) (hok : ∃ out, r = Except.ok out) :
    ab' = ArraysBuilder.new ab.fields ∧
    ab'.builder.state = .start ∧
    ab'.builder.validity = [] ∧
    ∀ l ∈ ab'.builder.builders, l = [] := by
  have hsnd : ab.build_arrays.2 = ArraysBuilder.new ab.fields := by
    unfold ArraysBuilder.build_arrays ArraysBuilder.new
    cases hf : ab.builder.finish <;> simp [hf]
  have hab' : ab' = ArraysBuilder.new ab.fields := by
    rw [← hsnd, h]
  refine ⟨hab', ?_, ?_, ?_⟩ <;>
    simp [hab', ArraysBuilder.new, build_struct_array_builder]

/-- C8 witness: a fresh one-field builder; its `build_arrays` call
succeeds and resets it to a fresh builder for the same fields. -/
theorem c8_build_arrays_resets_builder_witness :
    (ArraysBuilder.new [GenericField.mk "a" GenericDataType.bool false
      []]).build_arrays =
      (Except.ok [[]],
        ArraysBuilder.new [GenericField.mk "a" GenericDataType.bool false []]) ∧
    (ArraysBuilder.new [GenericField.mk "a" GenericDataType.bool false
      []]).build_arrays.2 =
      ArraysBuilder.new [GenericField.mk "a" GenericDataType.bool false []] := by
  refine ⟨rfl, ?_⟩
  exact (c8_build_arrays_resets_builder
    (ArraysBuilder.new [GenericField.mk "a" GenericDataType.bool false []])
    (Except.ok [[]])
    (ArraysBuilder.new [GenericField.mk "a" GenericDataType.bool false []])
    rfl ⟨[[]], rfl⟩).1

/-- C10: `from_arrow2` with no fields and no arrays: the minimum over the
empty set of array lengths defaults to zero, and the call succeeds with an
empty sequence of items. -/
theorem c10_empty_arrays :
    from_arrays [] [] = Except.ok [] ∧ rowCount [] = 0 :=
  ⟨rfl, rfl⟩

/-- getD inside the bounds is getElem. -/
theorem getD_lt {α : Type} (l : List α) (d : α) (i : Nat) (h : i < l.length) :
    l.getD i d = l[i] := by
  induction l generalizing i with
  | nil => simp at h
  | cons x xs ih =>
    cases i with
    | zero => rfl
    | succ j =>
      rw [List.getD_cons_succ, List.getElem_cons_succ]
      exact ih j (by simpa using h)

/-- getD over a map inside the bounds applies the function to the
element. -/
theorem getD_map_lt {α β : Type} (f : α → β) (l : List α) (d : β) (i : Nat)
    (h : i < l.length) :
    (l.map f).getD i d = f l[i] := by
  rw [getD_lt _ _ _ (by simpa using h), List.getElem_map]

/-- getD at the length of the prefix picks the first element after it. -/
theorem getD_append_length {α : Type} (pre : List α) (v : α) (rest : List α)
    (d : α) :
    (pre ++ v :: rest).getD pre.length d = v := by
  induction pre with
  | nil => rfl
  | cons x xs ih => simpa [List.getD_cons_succ] using ih

/-- A left fold by min is bounded by its initial value. -/
theorem foldl_min_le_init (bs : List Nat) : ∀ i, bs.foldl min i ≤ i := by
  induction bs with
  | nil => intro i; simp
  | cons b bs ih => intro i; exact le_trans (ih (min i b)) (min_le_left i b)

/-- A left fold by min is bounded by every list element. -/
theorem foldl_min_le_mem (bs : List Nat) :
    ∀ (i x : Nat), x ∈ bs → bs.foldl min i ≤ x := by
  induction bs with
  | nil => intro i x hx; simp at hx
  | cons b bs ih =>
    intro i x hx
    rcases List.mem_cons.mp hx with rfl | hx
    · exact le_trans (foldl_min_le_init bs (min i x)) (min_le_right i x)
    · exact ih (min i b) x hx

/-- The defaulted minimum of a list is at most every member. -/
theorem min?_getD_le (l : List Nat) (x : Nat) (hx : x ∈ l) :
    l.min?.getD 0 ≤ x := by
  cases l with
  | nil => simp at hx
  | cons a as =>
    show (some (as.foldl min a)).getD 0 ≤ x
    rcases List.mem_cons.mp hx with rfl | hx
    · simpa using foldl_min_le_init as x
    · simpa using foldl_min_le_mem as a x hx

/-- A left fold by min over a constant list is the constant. -/
theorem foldl_min_const (n : Nat) :
    ∀ (as : List Nat), (∀ x ∈ as, x = n) → as.foldl min n = n := by
  intro as
  induction as with
  | nil => intro _; rfl
  | cons b bs ih =>
    intro h
    have hb : b = n := h b (List.mem_cons_self b bs)
    subst hb
    simpa using ih (fun x hx => h x (List.mem_cons_of_mem b hx))

/-- The defaulted minimum of a nonempty constant list is the constant. -/
theorem min?_getD_const (l : List Nat) (n : Nat) (hne : l ≠ [])
    (h : ∀ x ∈ l, x = n) : l.min?.getD 0 = n := by
  cases l with
  | nil => exact absurd rfl hne
  | cons a as =>
    have ha : a = n := h a (List.mem_cons_self a as)
    subst ha
    show (some (as.foldl min a)).getD 0 = a
    simpa using foldl_min_const a as (fun x hx => h x (List.mem_cons_of_mem a hx))

/-- A value has validity flag false exactly when it is null. -/
theorem isPresent_false_iff (v : AValue) :
    v.isPresent = false ↔ v = .null := by
  cases v <;> simp [AValue.isPresent]

/-- Decoding after encoding restores every present conforming primitive
value. -/
theorem decode_encode (t : PrimType) (nb : Bool) (v : AValue)
    (hc : conforms (.prim nb t) v = true) (hp : v.isPresent = true) :
    decodeScalar (encodeScalar t v) = v := by
  cases t <;> cases v <;>
    simp_all [conforms, AValue.isPresent, encodeScalar, decodeScalar,
      defaultScalar]

mutual

/-- The zero value of a field conforms to it. -/
theorem defaultValue_conforms (f : SField) :
    conforms f (defaultValue f) = true := by
  cases f with
  | prim nb t =>
    cases t <;> simp [defaultValue, defaultScalar, decodeScalar, conforms]
  | structF nb cs =>
    rw [defaultValue]
    simp [conforms, defaultValues_conformsAll cs]
  | listF nb c =>
    rw [defaultValue]
    simp [conforms, conformsElems]
termination_by sizeOf f

/-- The zero values of a field list conform to it pairwise. -/
theorem defaultValues_conformsAll (cs : List SField) :
    conformsAll cs (defaultValues cs) = true := by
  cases cs with
  | nil => simp [defaultValues, conformsAll]
  | cons c cs =>
    rw [defaultValues]
    simp [conformsAll, defaultValue_conforms c, defaultValues_conformsAll cs]
termination_by sizeOf cs

end

/-- A serialized column has one validity entry per cell. -/
theorem serializeCol_height (f : SField) (cells : List AValue) :
    colHeight (serializeCol f cells) = cells.length := by
  cases f <;> simp [serializeCol, colHeight]

/-- A struct column has one serialized child per child field. -/
theorem serializeChildren_length :
    ∀ (cs : List SField) (k : Nat) (cells : List AValue),
      (serializeChildren cs k cells).length = cs.length := by
  intro cs
  induction cs with
  | nil => intro k cells; simp [serializeChildren]
  | cons c cs ih => intro k cells; simp [serializeChildren, ih]

/-- Every serialized child column of a struct has one entry per cell. -/
theorem serializeChildren_heights :
    ∀ (cs : List SField) (k : Nat) (cells : List AValue),
      ∀ col ∈ serializeChildren cs k cells, colHeight col = cells.length := by
  intro cs
  induction cs with
  | nil => intro k cells col hcol; simp [serializeChildren] at hcol
  | cons c cs ih =>
    intro k cells col hcol
    rw [serializeChildren] at hcol
    rcases List.mem_cons.mp hcol with rfl | h
    · simp [serializeCol_height]
    · exact ih (k + 1) cells col h

mutual

/-- A serialized column matches the shape of its field. -/
theorem shapeOk_serializeCol (f : SField) (cells : List AValue) :
    shapeOk f (serializeCol f cells) = true := by
  cases f with
  | prim nb t => simp [serializeCol, shapeOk]
  | structF nb cs =>
    rw [serializeCol]
    simp [shapeOk, shapeOkAll_serializeChildren cs 0 cells]
  | listF nb c =>
    rw [serializeCol]
    simp [shapeOk, shapeOk_serializeCol c ((cells.map AValue.listItems).flatten)]
termination_by sizeOf f

/-- Serialized struct children match the shapes of the child fields. -/
theorem shapeOkAll_serializeChildren (cs : List SField) (k : Nat)
    (cells : List AValue) :
    shapeOkAll cs (serializeChildren cs k cells) = true := by
  cases cs with
  | nil => simp [serializeChildren, shapeOkAll]
  | cons c cs =>
    rw [serializeChildren]
    simp [shapeOkAll,
      shapeOk_serializeCol c (cells.map (structProj k (defaultValue c))),
      shapeOkAll_serializeChildren cs (k + 1) cells]
termination_by sizeOf cs

end

/-- An offset buffer has one more entry than there are elements. -/
theorem offsetsOf_length (lens : List Nat) :
    (offsetsOf lens).length = lens.length + 1 := by
  induction lens with
  | nil => rfl
  | cons n ns ih => simp [offsetsOf, ih]

/-- An offset buffer starts at zero. -/
theorem offsetsOf_getElem_zero (lens : List Nat)
    (h : 0 < (offsetsOf lens).length) : (offsetsOf lens)[0] = 0 := by
  cases lens <;> rfl

/-- Slicing the flattened elements between consecutive offsets recovers
each element list. -/
theorem slice_flatten (elems : List (List AValue)) :
    ∀ i, i < elems.length →
      ((elems.flatten.drop ((offsetsOf (elems.map List.length)).getD i 0)).take
        ((offsetsOf (elems.map List.length)).getD (i + 1) 0 -
          (offsetsOf (elems.map List.length)).getD i 0)) = elems.getD i [] := by
  induction elems with
  | nil => intro i hi; simp at hi
  | cons l ls ih =>
    intro i hi
    have hofs : offsetsOf ((l :: ls).map List.length) =
        0 :: (offsetsOf (ls.map List.length)).map (fun x => l.length + x) := by
      simp [offsetsOf]
    cases i with
    | zero =>
      have h2 : (offsetsOf ((l :: ls).map List.length)).getD 1 0 = l.length := by
        rw [hofs, List.getD_cons_succ,
          getD_map_lt _ _ _ _ (by rw [offsetsOf_length]; omega),
          offsetsOf_getElem_zero _ (by rw [offsetsOf_length]; omega)]
        simp
      rw [h2, hofs]
      simp [List.take_left]
    | succ j =>
      have hj : j < ls.length := by simpa using hi
      have hjo : j < (offsetsOf (ls.map List.length)).length := by
        rw [offsetsOf_length]; simp; omega
      have hjo2 : j + 1 < (offsetsOf (ls.map List.length)).length := by
        rw [offsetsOf_length]; simp; omega
      have hA : (offsetsOf ((l :: ls).map List.length)).getD (j + 1) 0 =
          l.length + (offsetsOf (ls.map List.length)).getD j 0 := by
        rw [hofs, List.getD_cons_succ, getD_map_lt _ _ _ _ hjo,
          getD_lt _ _ _ hjo]
      have hB : (offsetsOf ((l :: ls).map List.length)).getD (j + 2) 0 =
          l.length + (offsetsOf (ls.map List.length)).getD (j + 1) 0 := by
        rw [hofs, List.getD_cons_succ, getD_map_lt _ _ _ _ hjo2,
          getD_lt _ _ _ hjo2]
      rw [hA, hB, List.flatten_cons, List.getD_cons_succ]
      have hdrop : (l ++ ls.flatten).drop
          (l.length + (offsetsOf (ls.map List.length)).getD j 0) =
          ls.flatten.drop ((offsetsOf (ls.map List.length)).getD j 0) := by
        rw [List.drop_append]
      rw [hdrop, Nat.add_sub_add_left]
      exact ih j hj

/-- Element conformance of a list is `all` over its elements. -/
theorem conformsElems_eq_all (c : SField) :
    ∀ (xs : List AValue), conformsElems c xs = xs.all (conforms c) := by
  intro xs
  induction xs with
  | nil => simp [conformsElems]
  | cons x xs ih => simp [conformsElems, ih]

/-- The elements a conforming cell contributes to a list child all
conform to the element field. -/
theorem listItems_all_conforms (c : SField) (nb : Bool) (v : AValue)
    (h : conforms (.listF nb c) v = true) :
    (v.listItems).all (conforms c) = true := by
  cases v <;> simp_all [conforms, AValue.listItems, conformsElems_eq_all]

/-- The flattened elements of conforming list cells all conform to the
element field. -/
theorem flatten_all_conforms (c : SField) (nb : Bool) :
    ∀ (cells : List AValue), cells.all (conforms (.listF nb c)) = true →
      ((cells.map AValue.listItems).flatten).all (conforms c) = true := by
  intro cells
  induction cells with
  | nil => intro _; simp
  | cons v vs ih =>
    intro h
    rw [List.all_cons, Bool.and_eq_true] at h
    simp only [List.map_cons, List.flatten_cons, List.all_append,
      Bool.and_eq_true]
    exact ⟨listItems_all_conforms c nb v h.1, ih h.2⟩

/-- Pairwise conformance forces equal lengths. -/
theorem conformsAll_length :
    ∀ (cs : List SField) (vs : List AValue), conformsAll cs vs = true →
      vs.length = cs.length := by
  intro cs
  induction cs with
  | nil =>
    intro vs h
    cases vs with
    | nil => rfl
    | cons _ _ => simp [conformsAll] at h
  | cons c cs ih =>
    intro vs h
    cases vs with
    | nil => simp [conformsAll] at h
    | cons v vs =>
      rw [conformsAll, Bool.and_eq_true] at h
      simp [ih vs h.2]

/-- Every projection of a null cell conforms (it is the child's zero
value). -/
theorem projConformsFrom_null :
    ∀ (cs : List SField) (k : Nat), projConformsFrom cs k .null = true := by
  intro cs
  induction cs with
  | nil => intro k; rfl
  | cons c cs ih =>
    intro k
    simp [projConformsFrom, structProj, defaultValue_conforms c, ih (k + 1)]

/-- Every projection of a conforming record cell conforms to its child,
stated with an accumulated prefix. -/
theorem projConformsFrom_struct :
    ∀ (cs : List SField) (vs pre : List AValue), conformsAll cs vs = true →
      projConformsFrom cs pre.length (.structV (pre ++ vs)) = true := by
  intro cs
  induction cs with
  | nil => intro vs pre h; rfl
  | cons c cs ih =>
    intro vs pre h
    cases vs with
    | nil => simp [conformsAll] at h
    | cons v vs =>
      rw [conformsAll, Bool.and_eq_true] at h
      have hhead : structProj pre.length (defaultValue c)
          (.structV (pre ++ v :: vs)) = v := by
        show (pre ++ v :: vs).getD pre.length (defaultValue c) = v
        exact getD_append_length pre v vs _
      have htail := ih vs (pre ++ [v]) h.2
      simp only [List.length_append, List.length_singleton,
        List.append_assoc, List.singleton_append] at htail
      simp [projConformsFrom, hhead, h.1, htail]

/-- The projected row of a conforming record cell is exactly its
components, stated with an accumulated prefix. -/
theorem projRow_struct :
    ∀ (cs : List SField) (vs pre : List AValue), conformsAll cs vs = true →
      projRow cs pre.length (.structV (pre ++ vs)) = vs := by
  intro cs
  induction cs with
  | nil =>
    intro vs pre h
    cases vs with
    | nil => rfl
    | cons _ _ => simp [conformsAll] at h
  | cons c cs ih =>
    intro vs pre h
    cases vs with
    | nil => simp [conformsAll] at h
    | cons v vs =>
      rw [conformsAll, Bool.and_eq_true] at h
      have hhead : structProj pre.length (defaultValue c)
          (.structV (pre ++ v :: vs)) = v := by
        show (pre ++ v :: vs).getD pre.length (defaultValue c) = v
        exact getD_append_length pre v vs _
      have htail := ih vs (pre ++ [v]) h.2
      simp only [List.length_append, List.length_singleton,
        List.append_assoc, List.singleton_append] at htail
      simp [projRow, hhead, htail]

/-- A cell conforming to a struct field has conforming projections onto
every child. -/
theorem projConformsFrom_of_conforms (cs : List SField) (nb : Bool)
    (v : AValue) (h : conforms (.structF nb cs) v = true) :
    projConformsFrom cs 0 v = true := by
  cases v with
  | null => exact projConformsFrom_null cs 0
  | structV vs =>
    have h2 : conformsAll cs vs = true := by
      rw [conforms] at h; exact h
    simpa using projConformsFrom_struct cs vs [] h2
  | boolV b => simp [conforms] at h
  | intV i => simp [conforms] at h
  | strV s => simp [conforms] at h
  | listV xs => simp [conforms] at h

/-- Each projected child cell list has one entry per record cell. -/
theorem childProjections_lengths :
    ∀ (cs : List SField) (k : Nat) (cells : List AValue),
      ∀ col ∈ childProjections cs k cells, col.length = cells.length := by
  intro cs
  induction cs with
  | nil => intro k cells col hcol; simp [childProjections] at hcol
  | cons c cs ih =>
    intro k cells col hcol
    rw [childProjections] at hcol
    rcases List.mem_cons.mp hcol with rfl | h
    · simp
    · exact ih (k + 1) cells col h

/-- Reading row i across the projected child columns yields the projected
row of cell i. -/
theorem childProjections_map_getD :
    ∀ (cs : List SField) (k : Nat) (cells : List AValue) (i : Nat)
      (hi : i < cells.length),
      (childProjections cs k cells).map (fun col => col.getD i .null) =
        projRow cs k cells[i] := by
  intro cs
  induction cs with
  | nil => intro k cells i hi; simp [childProjections, projRow]
  | cons c cs ih =>
    intro k cells i hi
    simp only [childProjections, projRow, List.map_cons]
    rw [getD_map_lt _ _ _ _ hi, ih (k + 1) cells i hi]

mutual

/-- Round trip of one column: deserializing the serialization of
conforming cells restores them exactly, null positions included. -/
theorem roundtripCol (f : SField) : ∀ (cells : List AValue),
    cells.all (conforms f) = true →
    deserializeCol f (serializeCol f cells) = cells := by
  cases f with
  | prim nb t =>
    intro cells hc
    rw [serializeCol, deserializeCol]
    apply List.ext_getElem
    · simp
    · intro i h1 h2
      simp only [List.length_map] at h1
      simp only [List.getElem_map, List.getElem_range]
      have h2' : i < cells.length := h2
      rw [getD_map_lt _ _ _ _ h2', getD_map_lt _ _ _ _ h2']
      have hci : conforms (.prim nb t) cells[i] = true :=
        List.all_eq_true.mp hc _ (List.getElem_mem h2')
      cases hp : cells[i].isPresent with
      | true =>
        simp only [hp, if_true]
        exact decode_encode t nb _ hci hp
      | false =>
        simp [hp, (isPresent_false_iff _).mp hp]
  | structF nb cs =>
    intro cells hc
    rw [serializeCol, deserializeCol]
    have hproj : ∀ v ∈ cells, projConformsFrom cs 0 v = true :=
      fun v hv =>
        projConformsFrom_of_conforms cs nb v (List.all_eq_true.mp hc v hv)
    rw [roundtripChildren cs 0 cells hproj]
    apply List.ext_getElem
    · simp [rowsOfStruct]
    · intro i h1 h2
      simp only [rowsOfStruct, List.getElem_map, List.getElem_range]
      rw [getD_map_lt _ _ _ _ h2]
      have hci : conforms (.structF nb cs) cells[i] = true :=
        List.all_eq_true.mp hc _ (List.getElem_mem h2)
      cases hp : cells[i].isPresent with
      | false => simp [hp, (isPresent_false_iff _).mp hp]
      | true =>
        simp only [hp, if_true]
        rw [childProjections_map_getD cs 0 cells i h2]
        cases hv : cells[i] with
        | structV vs =>
          rw [hv] at hci
          rw [conforms] at hci
          have := projRow_struct cs vs [] hci
          simp only [List.length_nil, List.nil_append] at this
          rw [this]
        | null => rw [hv] at hp; simp [AValue.isPresent] at hp
        | boolV b => rw [hv] at hci; simp [conforms] at hci
        | intV x => rw [hv] at hci; simp [conforms] at hci
        | strV s => rw [hv] at hci; simp [conforms] at hci
        | listV xs => rw [hv] at hci; simp [conforms] at hci
  | listF nb c =>
    intro cells hc
    rw [serializeCol, deserializeCol]
    have hflat : ((cells.map AValue.listItems).flatten).all (conforms c) =
        true := flatten_all_conforms c nb cells hc
    rw [roundtripCol c ((cells.map AValue.listItems).flatten) hflat]
    apply List.ext_getElem
    · simp
    · intro i h1 h2
      simp only [List.getElem_map, List.getElem_range]
      rw [getD_map_lt _ _ _ _ h2]
      have hci : conforms (.listF nb c) cells[i] = true :=
        List.all_eq_true.mp hc _ (List.getElem_mem h2)
      cases hp : cells[i].isPresent with
      | false => simp [hp, (isPresent_false_iff _).mp hp]
      | true =>
        simp only [hp, if_true]
        have hslice := slice_flatten (cells.map AValue.listItems) i
          (by simpa using h2)
        rw [hslice, getD_map_lt _ _ _ _ h2]
        cases hv : cells[i] with
        | listV xs => rfl
        | null => rw [hv] at hp; simp [AValue.isPresent] at hp
        | boolV b => rw [hv] at hci; simp [conforms] at hci
        | intV x => rw [hv] at hci; simp [conforms] at hci
        | strV s => rw [hv] at hci; simp [conforms] at hci
        | structV vs => rw [hv] at hci; simp [conforms] at hci
termination_by sizeOf f

/-- Round trip of the struct children: deserializing the serialized child
columns yields exactly the projected child cell lists. -/
theorem roundtripChildren (cs : List SField) : ∀ (k : Nat)
    (cells : List AValue),
    (∀ v ∈ cells, projConformsFrom cs k v = true) →
    deserChildren cs (serializeChildren cs k cells) =
      childProjections cs k cells := by
  cases cs with
  | nil =>
    intro k cells h
    simp [serializeChildren, deserChildren, childProjections]
  | cons c cs =>
    intro k cells h
    rw [serializeChildren, deserChildren, childProjections]
    have hhead : (cells.map (structProj k (defaultValue c))).all
        (conforms c) = true := by
      rw [List.all_map]
      apply List.all_eq_true.mpr
      intro v hv
      have h1 := h v hv
      rw [projConformsFrom, Bool.and_eq_true] at h1
      exact h1.1
    have htail : ∀ v ∈ cells, projConformsFrom cs (k + 1) v = true := by
      intro v hv
      have h1 := h v hv
      rw [projConformsFrom, Bool.and_eq_true] at h1
      exact h1.2
    rw [roundtripCol c (cells.map (structProj k (defaultValue c))) hhead,
      roundtripChildren cs (k + 1) cells htail]
termination_by sizeOf cs

end

/-- Under a shape match, the reverse read of a column yields one row per
validity entry. -/
theorem deserializeCol_length (f : SField) (a : ColArray)
    (h : shapeOk f a = true) :
    (deserializeCol f a).length = colHeight a := by
  cases f <;> cases a <;>
    simp_all [shapeOk, deserializeCol, colHeight, rowsOfStruct]

/-- Extraction succeeds on shape-matching fields and arrays, yielding the
reverse reads of the columns. -/
theorem extractAll_of_shapeOkAll :
    ∀ (fields : List SField) (arrays : List ColArray),
      shapeOkAll fields arrays = true →
      extractAll fields arrays = Except.ok (deserChildren fields arrays) := by
  intro fields
  induction fields with
  | nil =>
    intro arrays h
    cases arrays with
    | nil => simp [extractAll, deserChildren]
    | cons a as => simp [shapeOkAll] at h
  | cons f fs ih =>
    intro arrays h
    cases arrays with
    | nil => simp [shapeOkAll] at h
    | cons a as =>
      rw [shapeOkAll, Bool.and_eq_true] at h
      rw [extractAll, deserChildren]
      simp only [extractOne, h.1, if_true, ih as h.2]
      rfl

/-- Every extracted column's length is the height of one of the given
arrays. -/
theorem deserChildren_heights :
    ∀ (fields : List SField) (arrays : List ColArray),
      shapeOkAll fields arrays = true →
      ∀ col ∈ deserChildren fields arrays,
        ∃ a ∈ arrays, col.length = colHeight a := by
  intro fields
  induction fields with
  | nil => intro arrays h col hcol; simp [deserChildren] at hcol
  | cons f fs ih =>
    intro arrays h col hcol
    cases arrays with
    | nil => simp [shapeOkAll] at h
    | cons a as =>
      rw [shapeOkAll, Bool.and_eq_true] at h
      rw [deserChildren] at hcol
      rcases List.mem_cons.mp hcol with rfl | hmem
      · exact ⟨a, List.mem_cons_self a as, deserializeCol_length f a h.1⟩
      · obtain ⟨a', ha', hl⟩ := ih as h.2 col hmem
        exact ⟨a', List.mem_cons_of_mem a ha', hl⟩

/-- Reading row i across columns that are all long enough succeeds and
yields the defaulted entries. -/
theorem mapM_getRow (cols : List (List AValue)) (i : Nat)
    (h : ∀ col ∈ cols, i < col.length) :
    (cols.mapM fun col =>
      if hlt : i < col.length then pure (col.get ⟨i, hlt⟩)
      else (Except.error "row index out of bounds" :
        Except String AValue)) =
      Except.ok (cols.map fun col => col.getD i .null) := by
  induction cols with
  | nil => rfl
  | cons c cs ih =>
    have hc := h c (List.mem_cons_self c cs)
    rw [List.mapM_cons, dif_pos hc,
      ih (fun col hcol => h col (List.mem_cons_of_mem c hcol))]
    have : c.get ⟨i, hc⟩ = c.getD i .null := by
      rw [getD_lt _ _ _ hc]; simp
    rw [this]
    rfl

/-- A list mapM over a function that succeeds everywhere is the ok of the
map. -/
theorem mapM_ok_of_forall {α β : Type} (l : List α)
    (f : α → Except String β) (g : α → β)
    (h : ∀ x ∈ l, f x = Except.ok (g x)) :
    l.mapM f = Except.ok (l.map g) := by
  induction l with
  | nil => rfl
  | cons x xs ih =>
    rw [List.mapM_cons, h x (List.mem_cons_self x xs),
      ih (fun y hy => h y (List.mem_cons_of_mem x hy))]
    rfl

/-- Reading every position of a list back by getD is the identity. -/
theorem range_map_getD {α : Type} (l : List α) (d : α) :
    (List.range l.length).map (fun i => l.getD i d) = l := by
  apply List.ext_getElem
  · simp
  · intro i h1 h2
    simp only [List.getElem_map, List.getElem_range]
    exact getD_lt _ _ _ h2

/-- Bind of a successful Except is the continuation. -/
theorem except_bind_ok {α β : Type} (a : α) (f : α → Except String β) :
    (Except.ok a >>= f) = f a := rfl

/-- C5: reconstruction from sibling arrays takes the minimum observed
length as the row count and succeeds with output truncated to that many
rows, rather than returning an error, whenever the arrays match the
fields' shapes — in particular for sibling arrays of unequal lengths. -/
theorem c5_min_length_reconstruction (fields : List SField)
    (arrays : List ColArray) (h : shapeOkAll fields arrays = true) :
    ∃ rows, from_arrays fields arrays = Except.ok rows ∧
      rows.length = rowCount arrays := by
  have hext := extractAll_of_shapeOkAll fields arrays h
  have hcols : ∀ col ∈ deserChildren fields arrays,
      rowCount arrays ≤ col.length := by
    intro col hcol
    obtain ⟨a, ha, hlen⟩ := deserChildren_heights fields arrays h col hcol
    rw [hlen]
    exact min?_getD_le _ _ (List.mem_map_of_mem colHeight ha)
  refine ⟨(List.range (rowCount arrays)).map
    (fun i => (deserChildren fields arrays).map
      (fun col => col.getD i .null)), ?_, by simp⟩
  rw [from_arrays, hext]
  simp only [except_bind_ok]
  apply mapM_ok_of_forall
  intro i hi
  have hlt : i < rowCount arrays := List.mem_range.mp hi
  exact mapM_getRow (deserChildren fields arrays) i
    (fun col hcol => lt_of_lt_of_le hlt (hcols col hcol))

/-- C5 witness: two shape-matching integer columns of unequal lengths 2
and 1; reconstruction succeeds with 1 row. -/
theorem c5_min_length_reconstruction_witness :
    ∃ rows, from_arrays [SField.prim false .i64T, SField.prim false .i64T]
      [ColArray.primA [true, true] [Scalar.intS 1, Scalar.intS 2],
       ColArray.primA [true] [Scalar.intS 7]] = Except.ok rows ∧
      rows.length = 1 := by
  obtain ⟨rows, h1, h2⟩ := c5_min_length_reconstruction
    [SField.prim false .i64T, SField.prim false .i64T]
    [ColArray.primA [true, true] [Scalar.intS 1, Scalar.intS 2],
     ColArray.primA [true] [Scalar.intS 7]]
    (by simp [shapeOkAll, shapeOk])
  exact ⟨rows, h1, h2⟩

/-- C1 counterexample: the schema with no fields (the trace of a batch of
records with no columns, root type Struct with zero children) and the
batch of one empty record.  The batch conforms, serialization produces no
arrays, and reconstruction then reads zero rows, so the round trip
returns the empty batch, not the original one-record batch. -/
theorem c1_empty_schema_counterexample :
    conformsRecords [] [[]] = true ∧
    from_arrays [] (to_arrays [] [[]]) =
      Except.ok ([] : List (List AValue)) ∧
    ([] : List (List AValue)) ≠ [[]] := by
  refine ⟨?_, ?_, by simp⟩
  · simp [conformsRecords, conformsAll]
  · have h1 : to_arrays [] [[]] = [] := by
      rw [to_arrays, serializeChildren]
    rw [h1]
    rfl

/-- C1 (amended): for every schema with at least one field and every
conforming batch, deserializing the serialized arrays restores the batch
value-for-value, null positions included.  (With zero fields no arrays
are produced and the reconstruction row count defaults to zero, so the
unrestricted claim fails — see the counterexample.) -/
theorem c1_roundtrip_nonempty (fields : List SField)
    (records : List (List AValue)) (hne : fields ≠ [])
    (hc : conformsRecords fields records = true) :
    from_arrays fields (to_arrays fields records) = Except.ok records := by
  have hcells : (records.map AValue.structV).all
      (conforms (.structF false fields)) = true := by
    apply List.all_eq_true.mpr
    intro v hv
    obtain ⟨r, hr, rfl⟩ := List.mem_map.mp hv
    have h1 := List.all_eq_true.mp hc r hr
    simpa [conforms] using h1
  have hproj : ∀ v ∈ records.map AValue.structV,
      projConformsFrom fields 0 v = true :=
    fun v hv => projConformsFrom_of_conforms fields false v
      (List.all_eq_true.mp hcells v hv)
  have hshape : shapeOkAll fields (to_arrays fields records) = true := by
    rw [to_arrays]
    exact shapeOkAll_serializeChildren fields 0 (records.map AValue.structV)
  have hext : extractAll fields (to_arrays fields records) =
      Except.ok (childProjections fields 0 (records.map AValue.structV)) := by
    rw [extractAll_of_shapeOkAll _ _ hshape, to_arrays,
      roundtripChildren fields 0 (records.map AValue.structV) hproj]
  have hrc : rowCount (to_arrays fields records) = records.length := by
    apply min?_getD_const
    · intro hcon
      have h0 : ((to_arrays fields records).map colHeight).length = 0 := by
        rw [hcon]; rfl
      rw [List.length_map, to_arrays, serializeChildren_length] at h0
      exact hne (List.length_eq_zero.mp h0)
    · intro x hx
      obtain ⟨col, hcol, rfl⟩ := List.mem_map.mp hx
      rw [to_arrays] at hcol
      rw [serializeChildren_heights fields 0 _ col hcol]
      simp
  have hheights : ∀ col ∈
      childProjections fields 0 (records.map AValue.structV),
      col.length = records.length := by
    intro col hcol
    rw [childProjections_lengths fields 0 _ col hcol, List.length_map]
  have hrows : (List.range records.length).map
      (fun i => (childProjections fields 0 (records.map AValue.structV)).map
        (fun col => col.getD i AValue.null)) = records := by
    apply List.ext_getElem
    · simp
    · intro i h1 h2
      simp only [List.getElem_map, List.getElem_range]
      have hi : i < (records.map AValue.structV).length := by simpa using h2
      rw [childProjections_map_getD fields 0 _ i hi]
      have hcell : (records.map AValue.structV)[i] =
          AValue.structV records[i] := by simp
      rw [hcell]
      have hconf : conformsAll fields records[i] = true :=
        List.all_eq_true.mp hc _ (List.getElem_mem h2)
      have hp := projRow_struct fields records[i] [] hconf
      simpa using hp
  have hmain : (List.range records.length).mapM
      (fun i => (childProjections fields 0 (records.map AValue.structV)).mapM
        (fun col => if hlt : i < col.length then pure (col.get ⟨i, hlt⟩)
          else (Except.error "row index out of bounds" :
            Except String AValue))) =
      Except.ok ((List.range records.length).map
        (fun i => (childProjections fields 0
            (records.map AValue.structV)).map
          (fun col => col.getD i AValue.null))) := by
    apply mapM_ok_of_forall
    intro i hi
    have hlt : i < records.length := List.mem_range.mp hi
    exact mapM_getRow _ i
      (fun col hcol => by rw [hheights col hcol]; exact hlt)
  rw [from_arrays, hext]
  simp only [except_bind_ok]
  rw [hrc, hmain, hrows]

/-- C1 witness: a one-field nullable integer schema and a two-record
batch with one null; the round trip restores the batch exactly. -/
theorem c1_roundtrip_nonempty_witness :
    from_arrays [SField.prim true .i64T]
      (to_arrays [SField.prim true .i64T]
        [[AValue.intV 5], [AValue.null]]) =
      Except.ok [[AValue.intV 5], [AValue.null]] :=
  c1_roundtrip_nonempty [SField.prim true .i64T]
    [[AValue.intV 5], [AValue.null]]
    (by simp)
    (by simp [conformsRecords, conformsAll, conforms])

end SerdeArrow
